import Mathlib

/-!
Verification development for the `@bumble/store` state-management library
(`src/build/bundle-esm.js`).  The JavaScript module keeps four pieces of
module-level mutable state (`storeReady`, `state`, `listeners`,
`shouldUpdateState`/`composeNextState`); we embed them as a `Store` record
that every operation threads explicitly.  JavaScript objects are embedded
as a heap of numbered objects (`HObj`) so that object identity ("a fresh
copy", "two distinct objects") is expressible: allocating `{ ...state }`
appends a new object to the heap and returns a fresh reference.
Exceptions are embedded with `Except`; an operation returns its (possibly
error) result together with the store as it is when the operation returns,
so a throw that happens before any mutation returns the store unchanged.
-/

namespace BumbleStore

/-- A JavaScript value: a primitive, or a reference into the heap. -/
inductive JVal where
  | undef
  | jnull
  | jbool (b : Bool)
  | jnum (n : Int)
  | jstr (s : String)
  | jref (r : Nat)
deriving DecidableEq, Repr

/-- The fields of a JavaScript object, in property-insertion order. -/
abbrev ObjFields := List (String × JVal)

/-- A heap object: a plain object or an array. -/
inductive HObj where
  | obj (fields : ObjFields)
  | arr (elems : List JVal)
deriving DecidableEq, Repr

/-- JavaScript truthiness (`undefined`, `null`, `false`, `0`, `''` are
falsy; every object reference is truthy). -/
def truthy : JVal → Bool
  | .undef => false
  | .jnull => false
  | .jbool b => b
  | .jnum n => n != 0
  | .jstr s => s.length != 0
  | .jref _ => true

/-- Property read `o[k]`: first (and, for objects built by this module,
only) binding of `k`. -/
def lookup (o : ObjFields) (k : String) : Option JVal :=
  (o.find? (fun p => p.1 == k)).map Prod.snd

/-- Writing one property, as object spread and `Object.assign` do: if the
key is present its value is overwritten in place, otherwise the binding is
appended (JavaScript keeps the first-insertion position of a key). -/
def insertKV (o : ObjFields) (k : String) (v : JVal) : ObjFields :=
  if o.any (fun p => p.1 == k) then
    o.map (fun p => if p.1 == k then (k, v) else p)
  else o ++ [(k, v)]

/-- Content of the spread `{ ...a, ...b }`, and of `Object.assign(a, b)`:
all bindings of `b` written onto `a` left to right. -/
def spread2 (a b : ObjFields) : ObjFields :=
  b.foldl (fun acc p => insertKV acc p.1 p.2) a

/-- The error taxonomy of the module.  The source throws plain `Error`s;
the constructor records which message was thrown:
`notInitialized name` is  "`${name} is not initialized. Call this function
after initStore() has completed.`", `alreadyInitialized` is
"Cannot initialize the store twice.", `wrongContext` is
"Must initialize the store in the background page.". -/
inductive JSError where
  | notInitialized (name : String)
  | alreadyInitialized
  | wrongContext
deriving DecidableEq, Repr

/-- The environment facts the context classifier reads: `location.protocol`,
`location.pathname`, and `chrome.runtime.getManifest().background.page`. -/
structure Env where
  protocol : String
  pathname : String
  manifestBackgroundPage : String
deriving DecidableEq, Repr

/-- `isBackgroundPage` from `store.context.js` (bundle lines 3-7). -/
def isBackgroundPage (env : Env) : Bool :=
  env.protocol == "chrome-extension:" &&
    (env.pathname == "/_generated_background_page.html" ||
      env.pathname == env.manifestBackgroundPage)

/-- `isContentScript` from `store.context.js` (bundle lines 9-10). -/
def isContentScript (env : Env) : Bool :=
  env.protocol != "chrome-extension:"

/-- The module-level mutable state of `store.background.js`:
`state` is the object at heap address `stateRef` (the `const state = {}`
object, mutated only through `Object.assign`); listeners are identified by
opaque tokens (JavaScript compares them with `===`). -/
structure Store where
  heap : List HObj
  stateRef : Nat
  storeReady : Bool
  listeners : List Nat
  shouldUpdateState : Bool
  composeNextState : ObjFields → ObjFields

/-- The fields of the authoritative `state` object. -/
def stateContent (σ : Store) : ObjFields :=
  match σ.heap[σ.stateRef]? with
  | some (.obj fs) => fs
  | _ => []

/-- The argument of `getState`: absent/`undefined`, a string key, or a
selector function (modelled as a pure function of the state's fields). -/
inductive Selector where
  | undef
  | key (k : String)
  | fn (f : ObjFields → JVal)

/-- `getState` (bundle lines 61-86).  A non-empty string selects one
property: a truthy `instanceof Array` value is copied with `[...value]`,
a truthy `instanceof Object` value with `{ ...value }` (falsy values are
all primitives, so the truthiness guard only ever passes for references),
and any other value is returned as is.  A function selector is applied to
the fresh copy `{ ...state }`.  Anything else — including the empty
string, whose `.length` is falsy — returns the fresh copy `{ ...state }`. -/
def getState (keyOrFn : Selector) (σ : Store) : Except JSError JVal × Store :=
  if σ.storeReady = false then
    (.error (.notInitialized "store.getState"), σ)
  else
    match keyOrFn with
    | .key k =>
      if k.length != 0 then
        let value := (lookup (stateContent σ) k).getD .undef
        match value with
        | .jref r =>
          match σ.heap[r]? with
          | some (.arr es) =>
            (.ok (.jref σ.heap.length), { σ with heap := σ.heap ++ [.arr es] })
          | some (.obj fs) =>
            (.ok (.jref σ.heap.length), { σ with heap := σ.heap ++ [.obj fs] })
          | none => (.ok value, σ)
        | _ => (.ok value, σ)
      else
        (.ok (.jref σ.heap.length), { σ with heap := σ.heap ++ [.obj (stateContent σ)] })
    | .fn f =>
      (.ok (f (stateContent σ)), { σ with heap := σ.heap ++ [.obj (stateContent σ)] })
    | .undef =>
      (.ok (.jref σ.heap.length), { σ with heap := σ.heap ++ [.obj (stateContent σ)] })

/-- The argument of `setState`: a partial state object, or a function from
the previous state's fields to a partial state object. -/
inductive Update where
  | obj (o : ObjFields)
  | fn (f : ObjFields → ObjFields)

/-- A callback registered with `timeout(0)` during the synchronous phase of
a batch window: the deferred commit scheduled by the window's first
`setState` call (whose promise the commit chain then resolves), or the
`timeout(0).then(resolve)` registered by every call. -/
inductive Task where
  | commit (call : Nat)
  | resolve (call : Nat)
deriving DecidableEq, Repr

/-- Observable events of a run: the commit's `Object.assign` into `state`,
a listener invocation `fn(getState())`, and the resolution of call number
`call`'s promise with the value produced by its `.then(getState)`. -/
inductive Ev where
  | committed
  | listenerCall (listener : Nat) (v : JVal)
  | resolvedCall (call : Nat) (v : JVal)
deriving DecidableEq, Repr

/-- The synchronous part of `setState` (bundle lines 112-161): the guard,
the extension of `composeNextState` by one step
`nextState => fn(setter(nextState))`, and the `timeout(0)` registrations.
The first call of a window (`shouldUpdateState` still true) registers the
deferred commit — whose chain resolves this call's promise — and clears
`shouldUpdateState`; every call also registers `timeout(0).then(resolve)`.
`timeout` callbacks run first-registered-first once the synchronous phase
yields. -/
def setStateSync (call : Nat) (newStateOrFn : Update) (σ : Store) :
    Except JSError (Store × List Task) :=
  if σ.storeReady = false then
    .error (.notInitialized "store.setState")
  else
    let setter := σ.composeNextState
    let fn : ObjFields → ObjFields :=
      match newStateOrFn with
      | .fn f => fun prevState => spread2 prevState (f prevState)
      | .obj o => fun prevState => spread2 prevState o
    if σ.shouldUpdateState then
      .ok ({ σ with
              composeNextState := fun nextState => fn (setter nextState)
              shouldUpdateState := false },
        [.commit call, .resolve call])
    else
      .ok ({ σ with composeNextState := fun nextState => fn (setter nextState) },
        [.resolve call])

/-- `Object.assign(state, nextState)` (bundle line 144): the bindings of
`nextState` are written onto the `state` object in place. -/
def assignState (σ : Store) (nextState : ObjFields) : Store :=
  { σ with heap := σ.heap.set σ.stateRef (.obj (spread2 (stateContent σ) nextState)) }

/-- Reads the fields of the object a value refers to (used by the commit to
feed the `{ ...state }` copy returned by `getState()` to the chain). -/
def derefObj (σ : Store) (v : JVal) : ObjFields :=
  match v with
  | .jref r =>
    match σ.heap[r]? with
    | some (.obj fs) => fs
    | _ => []
  | _ => []

/-- `listeners.forEach(fn => fn(getState()))` (bundle lines 149 and
249-250): each listener is invoked, in registration order, with a fresh
copy of the state; a throw inside `getState` (the store not being ready)
aborts the iteration.  Listeners are opaque, so an invocation is recorded
as an event. -/
def fireLoop : List Nat → Store → Except JSError Unit × Store × List Ev
  | [], σ => (.ok (), σ, [])
  | ℓ :: rest, σ =>
    match getState .undef σ with
    | (.error e, σ') => (.error e, σ', [])
    | (.ok v, σ') =>
      match fireLoop rest σ' with
      | (res, σ'', evs) => (res, σ'', .listenerCall ℓ v :: evs)

/-- The deferred commit callback (bundle lines 141-150): apply the full
chain to `getState()` (a fresh copy of the state), `Object.assign` the
result into `state`, reset `shouldUpdateState` and `composeNextState`,
then invoke every listener with a fresh copy of the committed state. -/
def commitStep (σ : Store) : Except JSError Unit × Store × List Ev :=
  match getState .undef σ with
  | (.error e, σ') => (.error e, σ', [])
  | (.ok v, σ') =>
    let nextState := σ'.composeNextState (derefObj σ' v)
    let σ2 := assignState σ' nextState
    let σ3 := { σ2 with shouldUpdateState := true, composeNextState := fun s => s }
    match fireLoop σ3.listeners σ3 with
    | (res, σ4, evs) => (res, σ4, .committed :: evs)

/-- Drains the `timeout(0)` queue in registration order.  A `commit` task
runs the commit and then resolves the scheduling call's promise (the
`.then(resolve)` on the commit chain, followed by that promise's
`.then(getState)` continuation).  A `resolve` task resolves its call's
promise the same way unless it was already resolved by the commit chain —
a JavaScript promise ignores a second `resolve`. -/
def drain : Store → List Task → List Nat → Except JSError Unit × Store × List Ev
  | σ, [], _ => (.ok (), σ, [])
  | σ, .commit i :: rest, resolved =>
    match commitStep σ with
    | (.error e, σ', evs) => (.error e, σ', evs)
    | (.ok _, σ', evs) =>
      match getState .undef σ' with
      | (.error e, σ2) => (.error e, σ2, evs)
      | (.ok v, σ2) =>
        match drain σ2 rest (i :: resolved) with
        | (res, σ3, evs2) => (res, σ3, evs ++ .resolvedCall i v :: evs2)
  | σ, .resolve i :: rest, resolved =>
    if i ∈ resolved then drain σ rest resolved
    else
      match getState .undef σ with
      | (.error e, σ') => (.error e, σ', [])
      | (.ok v, σ') =>
        match drain σ' rest (i :: resolved) with
        | (res, σ2, evs) => (res, σ2, .resolvedCall i v :: evs)

/-- Issues the calls of one synchronous phase, numbering them from `i`,
collecting the `timeout(0)` registrations in order. -/
def issueCalls : List Update → Nat → Store → Except JSError (Store × List Task)
  | [], _, σ => .ok (σ, [])
  | u :: rest, i, σ =>
    match setStateSync i u σ with
    | .error e => .error e
    | .ok (σ', ts) =>
      match issueCalls rest (i + 1) σ' with
      | .error e => .error e
      | .ok (σ'', ts') => .ok (σ'', ts ++ ts')

/-- One batch window: the `setState` calls issued synchronously, then the
`timeout(0)` queue drained in registration order. -/
def runBatch (σ : Store) (upds : List Update) : Except JSError Unit × Store × List Ev :=
  match issueCalls upds 0 σ with
  | .error e => (.error e, σ, [])
  | .ok (σ', tasks) => drain σ' tasks []

/-- `addListener` (bundle lines 181-187): unconditional append. -/
def addListener (listener : Nat) (σ : Store) : Except JSError Unit × Store :=
  if σ.storeReady then
    (.ok (), { σ with listeners := σ.listeners ++ [listener] })
  else
    (.error (.notInitialized "store.onStateChange.addListener"), σ)

/-- `removeListener` (bundle lines 200-206): filter by identity. -/
def removeListener (listener : Nat) (σ : Store) : Except JSError Unit × Store :=
  if σ.storeReady then
    (.ok (), { σ with listeners := σ.listeners.filter (fun l => l != listener) })
  else
    (.error (.notInitialized "store.onStateChange.removeListener"), σ)

/-- `hasListener` (bundle lines 219-225).  The ready branch evaluates
`listeners.some(l => l === listener)` but has no `return` statement, so
the function returns `undefined`. -/
def hasListener (listener : Nat) (σ : Store) : Except JSError JVal × Store :=
  if σ.storeReady then
    let _ := σ.listeners.any (fun l => l == listener)
    (.ok .undef, σ)
  else
    (.error (.notInitialized "store.onStateChange.hasListener"), σ)

/-- `hasListeners` (bundle line 237): `!!listeners.length`, with no
readiness guard — it never throws. -/
def hasListeners (σ : Store) : Except JSError Bool × Store :=
  (.ok (σ.listeners.length != 0), σ)

/-- `fireListeners` (bundle lines 249-250): no readiness guard of its own;
it can only throw through the `getState()` call made for each listener. -/
def fireListeners (σ : Store) : Except JSError Unit × Store × List Ev :=
  fireLoop σ.listeners σ

/-- `initStore` (bundle lines 281-299).  Both guards throw before any
mutation; on success the initial state is `Object.assign`ed into the state
object and the readiness flag is set.  (The resolution of the published
`storePromise` handshake is outside this model.) -/
def initStore (env : Env) (initialState : ObjFields) (σ : Store) :
    Except JSError Unit × Store :=
  if σ.storeReady then
    (.error .alreadyInitialized, σ)
  else if !isBackgroundPage env then
    (.error .wrongContext, σ)
  else
    (.ok (), { assignState σ initialState with storeReady := true })

/-! ### Specification-side definitions

`applyUpdate`/`mergeFold` restate the spec's description of a batch: the
left-to-right key-level merge of the partial updates on top of the state
at the start of the batch, a function-valued update being applied to the
state as merged so far.  `listenEvs`/`resolveEvs` describe the expected
event trace of a commit: consecutive fresh heap addresses handed out to
the listeners and then to the promise resolutions. -/

/-- The partial update contributed by one `set` call, given the state as
merged so far. -/
def applyUpdate (u : Update) (s : ObjFields) : ObjFields :=
  match u with
  | .obj o => o
  | .fn f => f s

/-- The spec's batch semantics: left-to-right key-level merge of the
updates on top of `s`. -/
def mergeFold (s : ObjFields) (us : List Update) : ObjFields :=
  us.foldl (fun acc u => spread2 acc (applyUpdate u acc)) s

/-- Expected listener events: each listener in order receives a reference
to the next fresh heap address, starting at `c`. -/
def listenEvs (c : Nat) : List Nat → List Ev
  | [] => []
  | ℓ :: rest => .listenerCall ℓ (.jref c) :: listenEvs (c + 1) rest

/-- Expected resolution events: calls `a, a+1, ...` resolve in order, each
with a reference to the next fresh heap address, starting at `c`. -/
def resolveEvs (c a : Nat) : Nat → List Ev
  | 0 => []
  | m + 1 => .resolvedCall a (.jref c) :: resolveEvs (c + 1) (a + 1) m

/-- The property keys of an object, in order. -/
def keysOf (o : ObjFields) : List String := o.map Prod.fst

/-- Runtime JavaScript objects never hold a key twice. -/
def NoDupKeys (o : ObjFields) : Prop := (keysOf o).Nodup

/-- Whether a value is an object reference (`instanceof Object`). -/
def isRefB : JVal → Bool
  | .jref _ => true
  | _ => false

/-- The listener invocations of a trace, in order. -/
def listenerLogOf (tr : List Ev) : List (Nat × JVal) :=
  tr.filterMap (fun e => match e with
    | .listenerCall ℓ v => some (ℓ, v)
    | _ => none)

/-- The promise resolutions of a trace, in order. -/
def resolveLogOf (tr : List Ev) : List (Nat × JVal) :=
  tr.filterMap (fun e => match e with
    | .resolvedCall i v => some (i, v)
    | _ => none)

/-! ### Concrete fixtures used to instantiate the theorems -/

/-- An initialized quiescent store holding `{ apples: 2 }`, no listeners. -/
def applesStore : Store :=
  { heap := [.obj [("apples", .jnum 2)]], stateRef := 0, storeReady := true,
    listeners := [], shouldUpdateState := true, composeNextState := fun x => x }

/-- The same store with two registered listeners `10` and `20`. -/
def applesStore2 : Store := { applesStore with listeners := [10, 20] }

/-- A store before initialization: empty state, empty registry. -/
def virginStore : Store :=
  { heap := [.obj []], stateRef := 0, storeReady := false, listeners := [],
    shouldUpdateState := true, composeNextState := fun x => x }

/-- An update incrementing `apples` as a function of the previous state. -/
def incApples : Update :=
  .fn (fun s => [("apples", match lookup s "apples" with
    | some (.jnum n) => .jnum (n + 1)
    | _ => .undef)])

/-- The spec's example batch: `{apples: 3}` then two functional increments,
all in one synchronous phase. -/
def applesBatch : List Update := [.obj [("apples", .jnum 3)], incApples, incApples]

/-- A store whose state holds an array under `xs`, a nested object under
`o`, a scalar under `n`, and a binding for the empty-string key. -/
def richStore : Store :=
  { heap := [.obj [("xs", .jref 1), ("o", .jref 2), ("n", .jnum 5), ("", .jnum 9)],
      .arr [.jnum 1, .jnum 2], .obj [("a", .jnum 1)]],
    stateRef := 0, storeReady := true, listeners := [],
    shouldUpdateState := true, composeNextState := fun x => x }

/-- The background-page environment. -/
def bgEnv : Env :=
  ⟨"chrome-extension:", "/_generated_background_page.html", "/bg.html"⟩

/-- An extension-privileged page that is neither the background page nor a
web page (the options/popup case). -/
def popupEnv : Env := ⟨"chrome-extension:", "/popup.html", "/background.html"⟩

end BumbleStore

namespace BumbleStore

/-! ### Lemmas about object spread -/

theorem spread2_nil (a : ObjFields) : spread2 a [] = a := rfl

theorem spread2_cons (a : ObjFields) (p : String × JVal) (b : ObjFields) :
    spread2 a (p :: b) = spread2 (insertKV a p.1 p.2) b := rfl

theorem keysOf_insertKV (a : ObjFields) (k : String) (v : JVal) :
    keysOf (insertKV a k v) =
      if a.any (fun p => p.1 == k) then keysOf a else keysOf a ++ [k] := by
  unfold insertKV keysOf
  split
  · rw [List.map_map]
    apply List.map_congr_left
    intro p _
    by_cases h : p.1 = k
    · simp [h]
    · simp [h]
  · simp

theorem noDupKeys_insertKV {a : ObjFields} (h : NoDupKeys a) (k : String) (v : JVal) :
    NoDupKeys (insertKV a k v) := by
  unfold NoDupKeys
  rw [keysOf_insertKV]
  split
  · exact h
  · rename_i hany
    have hk : k ∉ keysOf a := by
      intro hmem
      rcases List.mem_map.mp hmem with ⟨p, hp, hpk⟩
      exact hany (List.any_eq_true.mpr ⟨p, hp, by simp [hpk]⟩)
    have h' : (keysOf a).Nodup := h
    simp [List.nodup_append, h', hk]

theorem keysOf_spread2 (a b : ObjFields) :
    ∃ ks, keysOf (spread2 a b) = keysOf a ++ ks := by
  induction b generalizing a with
  | nil => exact ⟨[], by simp [spread2]⟩
  | cons p b ih =>
    rw [spread2_cons]
    rcases ih (insertKV a p.1 p.2) with ⟨ks, hks⟩
    rw [hks, keysOf_insertKV]
    split
    · exact ⟨ks, rfl⟩
    · exact ⟨[p.1] ++ ks, by simp⟩

theorem noDupKeys_spread2 {a : ObjFields} (h : NoDupKeys a) (b : ObjFields) :
    NoDupKeys (spread2 a b) := by
  induction b generalizing a with
  | nil => exact h
  | cons p b ih => exact spread2_cons a p b ▸ ih (noDupKeys_insertKV h p.1 p.2)

theorem insertKV_cons_ne {k₀ k : String} (h : ¬k₀ = k) (w : JVal) (xs : ObjFields)
    (v : JVal) : insertKV ((k₀, w) :: xs) k v = (k₀, w) :: insertKV xs k v := by
  unfold insertKV
  have hb : (k₀ == k) = false := by simp [h]
  simp only [List.any_cons, hb, Bool.false_or, List.map_cons]
  by_cases hx : (xs.any fun p => p.1 == k) = true
  · rw [if_pos hx, if_pos hx]
    simp [hb]
  · rw [if_neg hx, if_neg hx]
    simp

theorem map_if_not_mem {k : String} {xs : ObjFields}
    (h : ∀ p ∈ xs, ¬p.1 = k) (v : JVal) :
    xs.map (fun p => if p.1 == k then (k, v) else p) = xs := by
  conv_rhs => rw [← List.map_id xs]
  apply List.map_congr_left
  intro p hp
  simp [h p hp]

theorem insertKV_head {k : String} {xs : ObjFields} (h : ∀ p ∈ xs, ¬p.1 = k)
    (w v : JVal) : insertKV ((k, w) :: xs) k v = (k, v) :: xs := by
  unfold insertKV
  have hc : (((k, w) :: xs).any fun p => p.1 == k) = true := by simp
  rw [if_pos hc]
  simp only [List.map_cons]
  rw [map_if_not_mem h]
  simp

theorem spread2_cons_head {k₀ : String} {t : ObjFields}
    (h : ∀ p ∈ t, ¬p.1 = k₀) (w : JVal) (a : ObjFields) :
    spread2 ((k₀, w) :: a) t = (k₀, w) :: spread2 a t := by
  induction t generalizing a with
  | nil => rfl
  | cons q t ih =>
    have hq : ¬k₀ = q.1 := fun he => h q (List.mem_cons_self q t) he.symm
    rw [spread2_cons, spread2_cons, insertKV_cons_ne hq w a q.2]
    exact ih (fun p hp => h p (List.mem_cons_of_mem q hp)) (insertKV a q.1 q.2)

theorem spread2_nil_left {t : ObjFields} (h : NoDupKeys t) : spread2 [] t = t := by
  induction t with
  | nil => rfl
  | cons q t ih =>
    have h' : (q.1 :: keysOf t).Nodup := h
    have hq : ∀ p ∈ t, ¬p.1 = q.1 := by
      intro p hp he
      exact h'.not_mem (he ▸ List.mem_map_of_mem Prod.fst hp)
    rw [spread2_cons]
    have h1 : insertKV [] q.1 q.2 = [(q.1, q.2)] := rfl
    rw [h1, show ([(q.1, q.2)] : ObjFields) = (q.1, q.2) :: [] from rfl,
      spread2_cons_head hq q.2 [], ih h'.of_cons]

theorem spread2_absorb {a t : ObjFields} (ks : List String)
    (hkeys : keysOf t = keysOf a ++ ks) (h : NoDupKeys t) : spread2 a t = t := by
  induction a generalizing t ks with
  | nil => exact spread2_nil_left h
  | cons q a ih =>
    match t with
    | [] => simp [keysOf] at hkeys
    | r :: t =>
      have hk : r.1 = q.1 ∧ keysOf t = keysOf a ++ ks := by
        have hc : r.1 :: keysOf t = q.1 :: (keysOf a ++ ks) := hkeys
        exact ⟨List.head_eq_of_cons_eq hc, List.tail_eq_of_cons_eq hc⟩
      have h' : (r.1 :: keysOf t).Nodup := h
      have hnotin : ∀ p ∈ t, ¬p.1 = q.1 := by
        intro p hp he
        exact h'.not_mem ((hk.1 ▸ he) ▸ List.mem_map_of_mem Prod.fst hp)
      rw [spread2_cons]
      have hins : insertKV (q :: a) r.1 r.2 = (q.1, r.2) :: a := by
        rw [show (q : String × JVal) = (q.1, q.2) from rfl, hk.1, insertKV_head _ q.2 r.2]
        intro p hp he
        have hmem : p.1 ∈ keysOf t :=
          hk.2 ▸ List.mem_append_left ks (List.mem_map_of_mem Prod.fst hp)
        rcases List.mem_map.mp hmem with ⟨p', hp', hpe⟩
        exact hnotin p' hp' (hpe.trans he)
      rw [hins, spread2_cons_head hnotin r.2 a, ih ks hk.2 h'.of_cons, ← hk.1]

theorem mergeFold_nil (s : ObjFields) : mergeFold s [] = s := rfl

theorem mergeFold_cons (s : ObjFields) (u : Update) (us : List Update) :
    mergeFold s (u :: us) = mergeFold (spread2 s (applyUpdate u s)) us := rfl

theorem noDupKeys_mergeFold {s : ObjFields} (h : NoDupKeys s) (us : List Update) :
    NoDupKeys (mergeFold s us) ∧ ∃ ks, keysOf (mergeFold s us) = keysOf s ++ ks := by
  induction us generalizing s with
  | nil => exact ⟨h, [], by simp [mergeFold_nil]⟩
  | cons u us ih =>
    rw [mergeFold_cons]
    rcases ih (noDupKeys_spread2 h (applyUpdate u s)) with ⟨hnd, ks2, hks2⟩
    rcases keysOf_spread2 s (applyUpdate u s) with ⟨ks1, hks1⟩
    exact ⟨hnd, ks1 ++ ks2, by rw [hks2, hks1, List.append_assoc]⟩

theorem spread2_mergeFold_absorb {s : ObjFields} (h : NoDupKeys s) (u : Update)
    (us : List Update) : spread2 s (mergeFold s (u :: us)) = mergeFold s (u :: us) := by
  rw [mergeFold_cons]
  rcases noDupKeys_mergeFold (noDupKeys_spread2 h (applyUpdate u s)) us with ⟨hnd, ks2, hks2⟩
  rcases keysOf_spread2 s (applyUpdate u s) with ⟨ks1, hks1⟩
  exact spread2_absorb (ks1 ++ ks2) (by rw [hks2, hks1, List.append_assoc]) hnd

/-! ### Lemmas about the store operations -/

theorem stateContent_eq {σ : Store} {s : ObjFields}
    (href : σ.heap[σ.stateRef]? = some (.obj s)) : stateContent σ = s := by
  unfold stateContent
  rw [href]

theorem stateRef_lt {σ : Store} {s : ObjFields}
    (href : σ.heap[σ.stateRef]? = some (.obj s)) : σ.stateRef < σ.heap.length := by
  rcases List.getElem?_eq_some_iff.mp href with ⟨h, _⟩
  exact h

theorem getState_undef_spec {σ : Store} (hready : σ.storeReady = true) :
    getState .undef σ =
      (.ok (.jref σ.heap.length), { σ with heap := σ.heap ++ [.obj (stateContent σ)] }) := by
  unfold getState
  rw [hready]
  simp

theorem heap_append_stateRef {σ : Store} {s : ObjFields}
    (href : σ.heap[σ.stateRef]? = some (.obj s)) (l : List HObj) :
    (σ.heap ++ l)[σ.stateRef]? = some (.obj s) := by
  rw [List.getElem?_append_left (stateRef_lt href), href]

theorem heap_set_stateRef {σ : Store} (h : σ.stateRef < σ.heap.length) (o : HObj) :
    (σ.heap.set σ.stateRef o)[σ.stateRef]? = some o :=
  List.getElem?_set_eq_of_lt o h

theorem fireLoop_spec {σ : Store} {s : ObjFields} (hready : σ.storeReady = true)
    (href : σ.heap[σ.stateRef]? = some (.obj s)) (L : List Nat) :
    fireLoop L σ =
      (.ok (), { σ with heap := σ.heap ++ List.replicate L.length (.obj s) },
        listenEvs σ.heap.length L) := by
  induction L generalizing σ with
  | nil => simp [fireLoop, listenEvs]
  | cons ℓ rest ih =>
    have hs : stateContent σ = s := stateContent_eq href
    have hstep := getState_undef_spec (σ := σ) hready
    rw [hs] at hstep
    have href' : ({ σ with heap := σ.heap ++ [.obj s] } : Store).heap[({ σ with heap := σ.heap ++ [.obj s] } : Store).stateRef]? = some (.obj s) :=
      heap_append_stateRef href [.obj s]
    have ih' := ih (σ := { σ with heap := σ.heap ++ [.obj s] }) hready href'
    simp only [fireLoop, hstep, ih']
    simp [List.replicate_succ, listenEvs, List.append_assoc]

theorem commitStep_spec {σ : Store} {s t : ObjFields} (hready : σ.storeReady = true)
    (href : σ.heap[σ.stateRef]? = some (HObj.obj s))
    (hc : σ.composeNextState s = t) (habs : spread2 s t = t) :
    commitStep σ =
      (.ok (),
        { σ with
            heap := ((σ.heap ++ [HObj.obj s]).set σ.stateRef (HObj.obj t)) ++
              List.replicate σ.listeners.length (HObj.obj t)
            shouldUpdateState := true
            composeNextState := fun x => x },
        .committed :: listenEvs (σ.heap.length + 1) σ.listeners) := by
  have hs : stateContent σ = s := stateContent_eq href
  have hstep := getState_undef_spec (σ := σ) hready
  rw [hs] at hstep
  have hlt : σ.stateRef < σ.heap.length := stateRef_lt href
  have hfire := fireLoop_spec
    (σ := { σ with
        heap := (σ.heap ++ [HObj.obj s]).set σ.stateRef (HObj.obj t)
        shouldUpdateState := true
        composeNextState := fun x => x })
    (s := t) hready
    (by
      show ((σ.heap ++ [HObj.obj s]).set σ.stateRef (HObj.obj t))[σ.stateRef]? = some (HObj.obj t)
      exact List.getElem?_set_eq_of_lt _ (by simp ; omega))
    σ.listeners
  simp only [commitStep, hstep, derefObj, List.getElem?_concat_length, assignState,
    stateContent, List.getElem?_append_left hlt, href, hc, habs]
  rw [hfire]
  simp [List.length_set]

theorem issueCalls_rest {us : List Update} :
    ∀ (σ : Store) (i : Nat), σ.storeReady = true → σ.shouldUpdateState = false →
    ∃ c, issueCalls us i σ =
        .ok ({ σ with composeNextState := c }, (List.range' i us.length).map Task.resolve) ∧
      ∀ x, c x = mergeFold (σ.composeNextState x) us := by
  induction us with
  | nil =>
    intro σ i hr hsu
    exact ⟨σ.composeNextState, rfl, fun x => rfl⟩
  | cons u us ih =>
    intro σ i hr hsu
    have hsync : ∃ c₁, setStateSync i u σ =
        .ok ({ σ with composeNextState := c₁ }, [Task.resolve i]) ∧
        ∀ x, c₁ x = spread2 (σ.composeNextState x) (applyUpdate u (σ.composeNextState x)) := by
      cases u with
      | obj o =>
        simp [setStateSync, hr, hsu]
        exact fun x => rfl
      | fn f =>
        simp [setStateSync, hr, hsu]
        exact fun x => rfl
    rcases hsync with ⟨c₁, hsync, hc₁⟩
    rcases ih { σ with composeNextState := c₁ } (i + 1) hr hsu with ⟨c, hrec, hcx⟩
    refine ⟨c, ?_, ?_⟩
    · simp only [issueCalls, hsync, hrec]
      simp [List.range'_succ]
    · intro x
      rw [hcx x]
      show mergeFold (c₁ x) us = mergeFold (σ.composeNextState x) (u :: us)
      rw [hc₁ x, mergeFold_cons]

theorem issueCalls_first {σ : Store} {u : Update} {us : List Update}
    (hr : σ.storeReady = true) (hsu : σ.shouldUpdateState = true) :
    ∃ c, issueCalls (u :: us) 0 σ =
        .ok ({ σ with
                composeNextState := c
                shouldUpdateState := false },
          Task.commit 0 :: Task.resolve 0 :: (List.range' 1 us.length).map Task.resolve) ∧
      ∀ x, c x = mergeFold (σ.composeNextState x) (u :: us) := by
  have hsync : ∃ c₁, setStateSync 0 u σ =
      .ok ({ σ with
              composeNextState := c₁
              shouldUpdateState := false }, [Task.commit 0, Task.resolve 0]) ∧
      ∀ x, c₁ x = spread2 (σ.composeNextState x) (applyUpdate u (σ.composeNextState x)) := by
    cases u with
    | obj o =>
      simp [setStateSync, hr, hsu]
      exact fun x => rfl
    | fn f =>
      simp [setStateSync, hr, hsu]
      exact fun x => rfl
  rcases hsync with ⟨c₁, hsync, hc₁⟩
  rcases @issueCalls_rest us { σ with
      composeNextState := c₁
      shouldUpdateState := false } 1 hr rfl with ⟨c, hrec, hcx⟩
  refine ⟨c, ?_, ?_⟩
  · simp only [issueCalls, hsync, hrec]
    simp
  · intro x
    rw [hcx x]
    show mergeFold (c₁ x) us = mergeFold (σ.composeNextState x) (u :: us)
    rw [hc₁ x, mergeFold_cons]

theorem drain_resolves {s : ObjFields} :
    ∀ (m a : Nat) (σ : Store) (resolved : List Nat),
      σ.storeReady = true → σ.heap[σ.stateRef]? = some (HObj.obj s) →
      (∀ j, a ≤ j → j ∉ resolved) →
      drain σ ((List.range' a m).map Task.resolve) resolved =
        (.ok (), { σ with heap := σ.heap ++ List.replicate m (HObj.obj s) },
          resolveEvs σ.heap.length a m) := by
  intro m
  induction m with
  | zero =>
    intro a σ resolved hr href hnin
    simp [drain, resolveEvs]
  | succ m ih =>
    intro a σ resolved hr href hnin
    rw [List.range'_succ]
    have hna : a ∉ resolved := hnin a le_rfl
    have hs : stateContent σ = s := stateContent_eq href
    have hstep := getState_undef_spec (σ := σ) hr
    rw [hs] at hstep
    have ih' := ih (a + 1) { σ with heap := σ.heap ++ [HObj.obj s] } (a :: resolved) hr
      (heap_append_stateRef href _)
      (by
        intro j hj hmem
        rcases List.mem_cons.mp hmem with h1 | h2
        · omega
        · exact hnin j (by omega) h2)
    simp only [List.map_cons, drain, if_neg hna, hstep, ih']
    simp [List.replicate_succ, resolveEvs, List.append_assoc]

theorem runBatch_spec {σ : Store} {s : ObjFields} (u : Update) (us : List Update)
    (hready : σ.storeReady = true) (hsu : σ.shouldUpdateState = true)
    (hchain : ∀ x, σ.composeNextState x = x)
    (href : σ.heap[σ.stateRef]? = some (HObj.obj s)) (hnd : NoDupKeys s) :
    runBatch σ (u :: us) =
      (.ok (),
        { σ with
            heap := ((σ.heap ++ [HObj.obj s]).set σ.stateRef
                (HObj.obj (mergeFold s (u :: us)))) ++
              List.replicate (σ.listeners.length + (us.length + 1))
                (HObj.obj (mergeFold s (u :: us)))
            shouldUpdateState := true
            composeNextState := fun x => x },
        .committed :: listenEvs (σ.heap.length + 1) σ.listeners ++
          resolveEvs (σ.heap.length + 1 + σ.listeners.length) 0 (us.length + 1)) := by
  rcases @issueCalls_first σ u us hready hsu with ⟨c, hissue, hcx⟩
  have hlt : σ.stateRef < σ.heap.length := stateRef_lt href
  have hct : c s = mergeFold s (u :: us) := by rw [hcx s, hchain s]
  have habs : spread2 s (mergeFold s (u :: us)) = mergeFold s (u :: us) :=
    spread2_mergeFold_absorb hnd u us
  have hcommit := commitStep_spec
    (σ := { σ with composeNextState := c, shouldUpdateState := false })
    hready href hct habs
  have href3 : (((σ.heap ++ [HObj.obj s]).set σ.stateRef
        (HObj.obj (mergeFold s (u :: us)))) ++
      List.replicate σ.listeners.length (HObj.obj (mergeFold s (u :: us))))[σ.stateRef]? =
      some (HObj.obj (mergeFold s (u :: us))) := by
    rw [List.getElem?_append_left (by simp ; omega),
      List.getElem?_set_eq_of_lt _ (by simp ; omega)]
  have hstep3 := getState_undef_spec
    (σ := { σ with
        heap := ((σ.heap ++ [HObj.obj s]).set σ.stateRef
            (HObj.obj (mergeFold s (u :: us)))) ++
          List.replicate σ.listeners.length (HObj.obj (mergeFold s (u :: us)))
        shouldUpdateState := true
        composeNextState := fun x => x })
    hready
  rw [stateContent_eq href3] at hstep3
  have href4 : ((((σ.heap ++ [HObj.obj s]).set σ.stateRef
        (HObj.obj (mergeFold s (u :: us)))) ++
      List.replicate σ.listeners.length (HObj.obj (mergeFold s (u :: us)))) ++
        [HObj.obj (mergeFold s (u :: us))])[σ.stateRef]? =
      some (HObj.obj (mergeFold s (u :: us))) := by
    rw [List.getElem?_append_left (by simp ; omega)]
    exact href3
  have hdrain := drain_resolves (s := mergeFold s (u :: us)) us.length 1
    { σ with
        heap := (((σ.heap ++ [HObj.obj s]).set σ.stateRef
            (HObj.obj (mergeFold s (u :: us)))) ++
          List.replicate σ.listeners.length (HObj.obj (mergeFold s (u :: us)))) ++
            [HObj.obj (mergeFold s (u :: us))]
        shouldUpdateState := true
        composeNextState := fun x => x }
    [0] hready href4
    (by
      intro j hj hmem
      rcases List.mem_cons.mp hmem with h1 | h2
      · omega
      · simp at h2)
  simp only [runBatch, hissue, drain, hcommit, hstep3]
  rw [if_pos (show (0 : Nat) ∈ ([0] : List Nat) by simp)]
  rw [hdrain]
  simp [List.replicate_succ, List.replicate_add, List.append_assoc, resolveEvs,
    List.length_set]
  rw [show σ.heap.length + 1 + (σ.listeners.length + 1) =
    σ.heap.length + 1 + σ.listeners.length + 1 from by omega]

/-! ### Trace-extraction lemmas -/

theorem listenerLogOf_listenEvs_fst :
    ∀ (L : List Nat) (c : Nat), (listenerLogOf (listenEvs c L)).map Prod.fst = L := by
  intro L
  induction L with
  | nil => intro c ; rfl
  | cons ℓ rest ih =>
    intro c
    simp only [listenEvs, listenerLogOf, List.filterMap_cons, List.map_cons]
    exact congrArg (ℓ :: ·) (ih (c + 1))

theorem listenerLogOf_listenEvs_snd :
    ∀ (L : List Nat) (c : Nat), (listenerLogOf (listenEvs c L)).map Prod.snd =
      (List.range L.length).map (fun i => JVal.jref (c + i)) := by
  intro L
  induction L with
  | nil => intro c ; rfl
  | cons ℓ rest ih =>
    intro c
    simp only [listenEvs, listenerLogOf, List.filterMap_cons, List.map_cons,
      List.length_cons, List.range_succ_eq_map, List.map_map]
    refine congrArg (JVal.jref (c + 0) :: ·) ?_
    rw [show (fun i => JVal.jref (c + i)) ∘ Nat.succ = fun i => JVal.jref (c + 1 + i) from ?_]
    · exact ih (c + 1)
    · funext i
      simp only [Function.comp]
      rw [show c + Nat.succ i = c + 1 + i from by omega]

theorem resolveLogOf_listenEvs :
    ∀ (L : List Nat) (c : Nat), resolveLogOf (listenEvs c L) = [] := by
  intro L
  induction L with
  | nil => intro c ; rfl
  | cons ℓ rest ih =>
    intro c
    simp only [listenEvs, resolveLogOf, List.filterMap_cons]
    exact ih (c + 1)

theorem listenerLogOf_resolveEvs :
    ∀ (m c a : Nat), listenerLogOf (resolveEvs c a m) = [] := by
  intro m
  induction m with
  | zero => intro c a ; rfl
  | succ m ih =>
    intro c a
    simp only [resolveEvs, listenerLogOf, List.filterMap_cons]
    exact ih (c + 1) (a + 1)

theorem resolveLogOf_resolveEvs_fst :
    ∀ (m c a : Nat), (resolveLogOf (resolveEvs c a m)).map Prod.fst = List.range' a m := by
  intro m
  induction m with
  | zero => intro c a ; rfl
  | succ m ih =>
    intro c a
    simp only [resolveEvs, resolveLogOf, List.filterMap_cons, List.map_cons,
      List.range'_succ]
    exact congrArg (a :: ·) (ih (c + 1) (a + 1))

theorem resolveLogOf_resolveEvs_snd :
    ∀ (m c a : Nat), (resolveLogOf (resolveEvs c a m)).map Prod.snd =
      (List.range m).map (fun i => JVal.jref (c + i)) := by
  intro m
  induction m with
  | zero => intro c a ; rfl
  | succ m ih =>
    intro c a
    simp only [resolveEvs, resolveLogOf, List.filterMap_cons, List.map_cons,
      List.range_succ_eq_map, List.map_map]
    refine congrArg (JVal.jref (c + 0) :: ·) ?_
    rw [show (fun i => JVal.jref (c + i)) ∘ Nat.succ = fun i => JVal.jref (c + 1 + i) from ?_]
    · exact ih (c + 1) (a + 1)
    · funext i
      simp only [Function.comp]
      rw [show c + Nat.succ i = c + 1 + i from by omega]

theorem committed_not_mem_listenEvs :
    ∀ (L : List Nat) (c : Nat), Ev.committed ∉ listenEvs c L := by
  intro L
  induction L with
  | nil => intro c h ; exact absurd h (List.not_mem_nil _)
  | cons ℓ rest ih =>
    intro c h
    rcases List.mem_cons.mp h with h1 | h2
    · exact absurd h1 (by simp [listenEvs])
    · exact ih (c + 1) h2

theorem committed_not_mem_resolveEvs :
    ∀ (m c a : Nat), Ev.committed ∉ resolveEvs c a m := by
  intro m
  induction m with
  | zero => intro c a h ; exact absurd h (List.not_mem_nil _)
  | succ m ih =>
    intro c a h
    rcases List.mem_cons.mp h with h1 | h2
    · exact absurd h1 (by simp [resolveEvs])
    · exact ih (c + 1) (a + 1) h2

theorem heap_run_region {base : List HObj} {o : HObj} {k n : Nat} (h : k < n) :
    (base ++ List.replicate n o)[base.length + k]? = some o := by
  rw [List.getElem?_append_right (Nat.le_add_right _ _)]
  rw [show base.length + k - base.length = k from by omega]
  simp [List.getElem?_eq_getElem, h]

/-! ### Readiness helpers -/

theorem getState_ready_isOk {σ : Store} (h : σ.storeReady = true) (sel : Selector) :
    (getState sel σ).1.isOk = true := by
  cases sel with
  | undef => simp [getState, h, Except.isOk, Except.toBool]
  | fn f => simp [getState, h, Except.isOk, Except.toBool]
  | key k =>
    simp only [getState, h]
    rw [if_neg (by simp)]
    split
    · split
      · split <;> simp [Except.isOk, Except.toBool]
      · simp [Except.isOk, Except.toBool]
    · simp [Except.isOk, Except.toBool]

theorem fireLoop_ready_isOk :
    ∀ (L : List Nat) (σ : Store), σ.storeReady = true → (fireLoop L σ).1.isOk = true := by
  intro L
  induction L with
  | nil => intro σ h ; rfl
  | cons ℓ rest ih =>
    intro σ h
    simp only [fireLoop, getState_undef_spec h]
    have hr := ih { σ with heap := σ.heap ++ [.obj (stateContent σ)] } h
    rcases hfl : fireLoop rest { σ with heap := σ.heap ++ [.obj (stateContent σ)] } with
      ⟨res, σ2, evs⟩
    rw [hfl] at hr
    simpa [hfl] using hr

/-! ### Claim theorems -/

/-- Claim C1: for every sequence of `setState` calls issued synchronously
within one batch window after initialization, the state committed when the
scheduled commit fires equals the left-to-right shallow key-level merge of
all the partial updates applied on top of the state at the start of the
batch: each call contributes exactly one mutation step, steps compose in
call order, and a function-valued update observes the effects of earlier
calls in the window (`mergeFold` feeds every update the state as merged so
far). -/
theorem batch_commit_merges_updates (σ : Store) (s : ObjFields) (upds : List Update)
    (hready : σ.storeReady = true) (hsu : σ.shouldUpdateState = true)
    (hchain : ∀ x, σ.composeNextState x = x)
    (href : σ.heap[σ.stateRef]? = some (HObj.obj s)) (hnd : NoDupKeys s) :
    (runBatch σ upds).1 = .ok () ∧
      stateContent (runBatch σ upds).2.1 = mergeFold s upds := by
  cases upds with
  | nil => exact ⟨rfl, stateContent_eq href⟩
  | cons u us =>
    have hlt : σ.stateRef < σ.heap.length := stateRef_lt href
    rw [runBatch_spec u us hready hsu hchain href hnd]
    refine ⟨rfl, ?_⟩
    unfold stateContent
    simp only
    rw [List.getElem?_append_left (by simp ; omega),
      List.getElem?_set_eq_of_lt _ (by simp ; omega)]

/-- Claim C1 witness: starting from `{apples: 2}`, the batch
`set {apples: 3}` followed by two functional increments in the same
synchronous phase commits the merged result (which evaluates to
`{apples: 5}`). -/
theorem batch_commit_merges_updates_witness :
    (runBatch applesStore applesBatch).1 = .ok () ∧
      stateContent (runBatch applesStore applesBatch).2.1 =
        mergeFold [("apples", JVal.jnum 2)] applesBatch :=
  batch_commit_merges_updates applesStore [("apples", JVal.jnum 2)] applesBatch rfl rfl
    (fun x => rfl) rfl (by unfold NoDupKeys ; decide)

/-- Claim C9: for every environment, the two context predicates are never
both true, and they are not complements — an extension-privileged page
that is neither the generated background page nor the manifest's
background page satisfies neither predicate. -/
theorem context_predicates_not_complementary (env : Env) :
    (isBackgroundPage env && isContentScript env) = false ∧
    isBackgroundPage popupEnv = false ∧ isContentScript popupEnv = false := by
  refine ⟨?_, by decide, by decide⟩
  cases hp : env.protocol == "chrome-extension:" with
  | false => simp [isBackgroundPage, isContentScript, hp]
  | true =>
    simp [isBackgroundPage, isContentScript, hp]
    exact fun _ => eq_of_beq hp

/-- Claim C10: `getState` with the empty-string selector does not look up
the key `""` — the string branch requires a non-empty string (truthy
`.length`), so the call falls through to the whole-state-copy branch. -/
theorem getState_empty_string_falls_through (σ τ : Store) (s : ObjFields)
    (hready : τ.storeReady = true) (href : τ.heap[τ.stateRef]? = some (HObj.obj s)) :
    getState (.key "") σ = getState .undef σ ∧
    getState (.key "") τ =
      (.ok (.jref τ.heap.length), { τ with heap := τ.heap ++ [HObj.obj s] }) := by
  constructor
  · cases hr : σ.storeReady <;> simp [getState, hr]
  · simp [getState, hready, stateContent_eq href]

/-- Claim C10 witness: in a store whose state even binds the empty key
(to `9`), `getState ''` returns the fresh whole-state copy, not that
binding. -/
theorem getState_empty_string_falls_through_witness :
    getState (.key "") virginStore = getState .undef virginStore ∧
    getState (.key "") richStore =
      (.ok (.jref richStore.heap.length),
        { richStore with heap := richStore.heap ++
            [HObj.obj [("xs", JVal.jref 1), ("o", JVal.jref 2),
              ("n", JVal.jnum 5), ("", JVal.jnum 9)]] }) :=
  getState_empty_string_falls_through virginStore richStore _ rfl rfl

/-- Claim C4 counterexample: `addListener` appends unconditionally, so
adding the same listener twice leaves two occurrences in the registry —
the registry is not unique by identity. -/
theorem listener_registry_not_unique :
    ((addListener 5 (addListener 5 applesStore).2).2).listeners.count 5 = 2 := by
  decide

/-- Claim C4 (amended): `addListener` appends the listener unconditionally
(one more occurrence per call, duplicates allowed), and `removeListener`
removes every occurrence of the listener by identity. -/
theorem listener_registry_append_semantics (σ : Store) (ℓ : Nat)
    (hready : σ.storeReady = true) :
    (addListener ℓ σ).2.listeners = σ.listeners ++ [ℓ] ∧
    ((addListener ℓ σ).2).listeners.count ℓ = σ.listeners.count ℓ + 1 ∧
    ((removeListener ℓ σ).2).listeners.count ℓ = 0 := by
  refine ⟨?_, ?_, ?_⟩
  · simp [addListener, hready]
  · simp [addListener, hready]
  · simp [removeListener, hready]
    exact List.count_eq_zero.mpr (by simp)

/-- Claim C4 witness for the amended statement, at a ready store with an
empty registry. -/
theorem listener_registry_append_semantics_witness :
    (addListener 5 applesStore).2.listeners = applesStore.listeners ++ [5] ∧
    ((addListener 5 applesStore).2).listeners.count 5 =
      applesStore.listeners.count 5 + 1 ∧
    ((removeListener 5 applesStore).2).listeners.count 5 = 0 :=
  listener_registry_append_semantics applesStore 5 rfl

/-- Claim C5: the code evaluated at the failing input — with listener `7`
registered and the store ready, `hasListener 7` returns `undefined`
rather than `true`, because the ready branch computes
`listeners.some(...)` but has no `return` statement (contradicting the
function's own `@returns {boolean}` documentation). -/
theorem hasListener_returns_undefined :
    (hasListener 7 { applesStore with listeners := [7] }).1 = .ok JVal.undef ∧
    7 ∈ ({ applesStore with listeners := [7] } : Store).listeners := by
  exact ⟨rfl, by simp⟩

/-- Claim C6: calling `initStore` a second time — in any environment,
including the owner context where the first call necessarily succeeded —
throws `AlreadyInitializedError` and leaves the whole store (state
mapping, listener registry, readiness flag) unchanged, since the
`storeReady` check precedes the context check and any mutation; calling
it on an uninitialized store when `isBackgroundPage` is false throws
`WrongContextError`, also with no mutation. -/
theorem initStore_guards (env wctx : Env) (init : ObjFields) (σ τ : Store)
    (h1 : σ.storeReady = true) (h2 : τ.storeReady = false)
    (h3 : isBackgroundPage wctx = false) :
    initStore env init σ = (.error .alreadyInitialized, σ) ∧
    initStore wctx init τ = (.error .wrongContext, τ) := by
  constructor
  · simp [initStore, h1]
  · simp [initStore, h2, h3]

/-- Claim C6 witness: re-initializing an initialized store from the
background page itself, and initializing from a popup page, at concrete
stores. -/
theorem initStore_guards_witness :
    initStore bgEnv [("a", JVal.jnum 1)] applesStore =
      (.error .alreadyInitialized, applesStore) ∧
    initStore popupEnv [("a", JVal.jnum 1)] virginStore =
      (.error .wrongContext, virginStore) :=
  initStore_guards bgEnv popupEnv [("a", JVal.jnum 1)] applesStore virginStore rfl rfl
    (by decide)

/-- Claim C2 counterexample: before initialization (readiness flag false,
registry necessarily empty) `hasListeners` returns `false` and
`fireListeners` returns normally — neither throws `NotInitializedError`. -/
theorem readiness_guard_counterexample :
    (hasListeners virginStore).1 = .ok false ∧
    (fireListeners virginStore).1 = .ok () := by
  exact ⟨rfl, rfl⟩

/-- Claim C2 (amended): while the readiness flag is false, `getState`,
`setState`, `addListener`, `removeListener` and `hasListener` throw a
`NotInitializedError` naming the failing operation; `hasListeners` has no
guard and reports registry non-emptiness, and `fireListeners` iterates the
registry (necessarily empty before initialization) and returns without
error.  After initialization has succeeded, no operation returns a
`NotInitializedError`. -/
theorem readiness_guard (σ τ : Store) (sel : Selector) (i ℓ : Nat) (u : Update)
    (hσ : σ.storeReady = false) (hσl : σ.listeners = [])
    (hτ : τ.storeReady = true) :
    (getState sel σ).1 = .error (.notInitialized "store.getState") ∧
    setStateSync i u σ = .error (.notInitialized "store.setState") ∧
    (addListener ℓ σ).1 = .error (.notInitialized "store.onStateChange.addListener") ∧
    (removeListener ℓ σ).1 =
      .error (.notInitialized "store.onStateChange.removeListener") ∧
    (hasListener ℓ σ).1 = .error (.notInitialized "store.onStateChange.hasListener") ∧
    (hasListeners σ).1 = .ok false ∧
    (fireListeners σ).1 = .ok () ∧
    (getState sel τ).1.isOk = true ∧
    (setStateSync i u τ).isOk = true ∧
    (addListener ℓ τ).1.isOk = true ∧
    (removeListener ℓ τ).1.isOk = true ∧
    (hasListener ℓ τ).1.isOk = true ∧
    (hasListeners τ).1.isOk = true ∧
    (fireListeners τ).1.isOk = true := by
  refine ⟨?_, ?_, ?_, ?_, ?_, ?_, ?_, ?_, ?_, ?_, ?_, ?_, ?_, ?_⟩
  · cases sel <;> simp [getState, hσ]
  · cases u <;> simp [setStateSync, hσ]
  · simp [addListener, hσ]
  · simp [removeListener, hσ]
  · simp [hasListener, hσ]
  · simp [hasListeners, hσl]
  · simp [fireListeners, hσl, fireLoop]
  · exact getState_ready_isOk hτ sel
  · cases hsu : τ.shouldUpdateState <;> cases u <;>
      simp [setStateSync, hτ, hsu, Except.isOk, Except.toBool]
  · simp [addListener, hτ, Except.isOk, Except.toBool]
  · simp [removeListener, hτ, Except.isOk, Except.toBool]
  · simp [hasListener, hτ, Except.isOk, Except.toBool]
  · simp [hasListeners, Except.isOk, Except.toBool]
  · exact fireLoop_ready_isOk τ.listeners τ hτ

/-- Claim C2 witness for the amended statement: the pre-initialization
store rejects each guarded operation with the named error, the
unguarded pair return normally, and every operation succeeds on an
initialized store. -/
theorem readiness_guard_witness :
    (getState (.key "apples") virginStore).1 =
      .error (.notInitialized "store.getState") ∧
    setStateSync 0 (.obj [("apples", JVal.jnum 3)]) virginStore =
      .error (.notInitialized "store.setState") ∧
    (addListener 3 virginStore).1 =
      .error (.notInitialized "store.onStateChange.addListener") ∧
    (removeListener 3 virginStore).1 =
      .error (.notInitialized "store.onStateChange.removeListener") ∧
    (hasListener 3 virginStore).1 =
      .error (.notInitialized "store.onStateChange.hasListener") ∧
    (hasListeners virginStore).1 = .ok false ∧
    (fireListeners virginStore).1 = .ok () ∧
    (getState (.key "apples") applesStore).1.isOk = true ∧
    (setStateSync 0 (.obj [("apples", JVal.jnum 3)]) applesStore).isOk = true ∧
    (addListener 3 applesStore).1.isOk = true ∧
    (removeListener 3 applesStore).1.isOk = true ∧
    (hasListener 3 applesStore).1.isOk = true ∧
    (hasListeners applesStore).1.isOk = true ∧
    (fireListeners applesStore).1.isOk = true :=
  readiness_guard virginStore applesStore (.key "apples") 0 3
    (.obj [("apples", JVal.jnum 3)]) rfl rfl rfl

/-- Claim C8: `getState` never mutates the stored state — it only
allocates fresh copies — and two selector-less calls with no intervening
`setState` return two distinct objects whose contents both equal the
state's content; a non-empty string selector returns a freshly allocated
one-level shallow copy when the value is an array or an object (a
reference distinct from the stored one, with the same content), and the
value itself when it is a scalar. -/
theorem getState_defensive_copies (σ : Store) (s : ObjFields)
    (k1 k2 k3 : String) (a1 a2 : Nat) (es : List JVal) (fs2 : ObjFields)
    (v3 : JVal) (f : ObjFields → JVal)
    (hready : σ.storeReady = true) (href : σ.heap[σ.stateRef]? = some (HObj.obj s))
    (hk1 : k1.length ≠ 0) (hv1 : lookup s k1 = some (.jref a1))
    (ha1 : σ.heap[a1]? = some (.arr es))
    (hk2 : k2.length ≠ 0) (hv2 : lookup s k2 = some (.jref a2))
    (ha2 : σ.heap[a2]? = some (.obj fs2))
    (hk3 : k3.length ≠ 0) (hv3 : lookup s k3 = some v3) (hs3 : isRefB v3 = false) :
    getState .undef σ =
      (.ok (.jref σ.heap.length), { σ with heap := σ.heap ++ [HObj.obj s] }) ∧
    getState .undef { σ with heap := σ.heap ++ [HObj.obj s] } =
      (.ok (.jref (σ.heap.length + 1)),
        { σ with heap := σ.heap ++ [HObj.obj s, HObj.obj s] }) ∧
    JVal.jref σ.heap.length ≠ JVal.jref (σ.heap.length + 1) ∧
    stateContent { σ with heap := σ.heap ++ [HObj.obj s, HObj.obj s] } =
      stateContent σ ∧
    getState (.fn f) σ = (.ok (f s), { σ with heap := σ.heap ++ [HObj.obj s] }) ∧
    getState (.key k1) σ =
      (.ok (.jref σ.heap.length), { σ with heap := σ.heap ++ [HObj.arr es] }) ∧
    JVal.jref σ.heap.length ≠ JVal.jref a1 ∧
    getState (.key k2) σ =
      (.ok (.jref σ.heap.length), { σ with heap := σ.heap ++ [HObj.obj fs2] }) ∧
    JVal.jref σ.heap.length ≠ JVal.jref a2 ∧
    getState (.key k3) σ = (.ok v3, σ) := by
  have hs : stateContent σ = s := stateContent_eq href
  refine ⟨?_, ?_, ?_, ?_, ?_, ?_, ?_, ?_, ?_, ?_⟩
  · have h1 := getState_undef_spec (σ := σ) hready
    rw [hs] at h1
    exact h1
  · have h2 := getState_undef_spec (σ := { σ with heap := σ.heap ++ [HObj.obj s] })
      hready
    rw [stateContent_eq (heap_append_stateRef href [HObj.obj s])] at h2
    simpa using h2
  · simp
  · rw [stateContent_eq (heap_append_stateRef href [HObj.obj s, HObj.obj s]), hs]
  · simp [getState, hready, hs]
  · simp [getState, hready, hs, hv1, ha1, hk1]
  · rcases List.getElem?_eq_some_iff.mp ha1 with ⟨hlt1, _⟩
    simp
    omega
  · simp [getState, hready, hs, hv2, ha2, hk2]
  · rcases List.getElem?_eq_some_iff.mp ha2 with ⟨hlt2, _⟩
    simp
    omega
  · cases v3 with
    | jref r => simp [isRefB] at hs3
    | undef => simp [getState, hready, hs, hv3, hk3]
    | jnull => simp [getState, hready, hs, hv3, hk3]
    | jbool b => simp [getState, hready, hs, hv3, hk3]
    | jnum n => simp [getState, hready, hs, hv3, hk3]
    | jstr t => simp [getState, hready, hs, hv3, hk3]

/-- Claim C8 witness at a concrete store holding an array, a nested
object, and a scalar. -/
theorem getState_defensive_copies_witness :
    getState .undef richStore =
      (.ok (.jref richStore.heap.length),
        { richStore with heap := richStore.heap ++
            [HObj.obj [("xs", JVal.jref 1), ("o", JVal.jref 2),
              ("n", JVal.jnum 5), ("", JVal.jnum 9)]] }) ∧
    getState .undef { richStore with heap := richStore.heap ++
        [HObj.obj [("xs", JVal.jref 1), ("o", JVal.jref 2),
          ("n", JVal.jnum 5), ("", JVal.jnum 9)]] } =
      (.ok (.jref (richStore.heap.length + 1)),
        { richStore with heap := richStore.heap ++
            [HObj.obj [("xs", JVal.jref 1), ("o", JVal.jref 2),
              ("n", JVal.jnum 5), ("", JVal.jnum 9)],
             HObj.obj [("xs", JVal.jref 1), ("o", JVal.jref 2),
              ("n", JVal.jnum 5), ("", JVal.jnum 9)]] }) ∧
    JVal.jref richStore.heap.length ≠ JVal.jref (richStore.heap.length + 1) ∧
    stateContent { richStore with heap := richStore.heap ++
        [HObj.obj [("xs", JVal.jref 1), ("o", JVal.jref 2),
          ("n", JVal.jnum 5), ("", JVal.jnum 9)],
         HObj.obj [("xs", JVal.jref 1), ("o", JVal.jref 2),
          ("n", JVal.jnum 5), ("", JVal.jnum 9)]] } = stateContent richStore ∧
    getState (.fn (fun _ => JVal.jnum 42)) richStore =
      (.ok (JVal.jnum 42),
        { richStore with heap := richStore.heap ++
            [HObj.obj [("xs", JVal.jref 1), ("o", JVal.jref 2),
              ("n", JVal.jnum 5), ("", JVal.jnum 9)]] }) ∧
    getState (.key "xs") richStore =
      (.ok (.jref richStore.heap.length),
        { richStore with heap := richStore.heap ++
            [HObj.arr [JVal.jnum 1, JVal.jnum 2]] }) ∧
    JVal.jref richStore.heap.length ≠ JVal.jref 1 ∧
    getState (.key "o") richStore =
      (.ok (.jref richStore.heap.length),
        { richStore with heap := richStore.heap ++ [HObj.obj [("a", JVal.jnum 1)]] }) ∧
    JVal.jref richStore.heap.length ≠ JVal.jref 2 ∧
    getState (.key "n") richStore = (.ok (JVal.jnum 5), richStore) :=
  getState_defensive_copies richStore
    [("xs", JVal.jref 1), ("o", JVal.jref 2), ("n", JVal.jnum 5), ("", JVal.jnum 9)]
    "xs" "o" "n" 1 2 [JVal.jnum 1, JVal.jnum 2] [("a", JVal.jnum 1)]
    (JVal.jnum 5) (fun _ => JVal.jnum 42)
    rfl rfl (by decide) (by decide) rfl (by decide) (by decide) rfl (by decide)
    (by decide) rfl

theorem listenerLogOf_append (l1 l2 : List Ev) :
    listenerLogOf (l1 ++ l2) = listenerLogOf l1 ++ listenerLogOf l2 :=
  List.filterMap_append l1 l2 _

theorem listenerLogOf_committed_cons (l : List Ev) :
    listenerLogOf (.committed :: l) = listenerLogOf l := rfl

theorem resolveLogOf_append (l1 l2 : List Ev) :
    resolveLogOf (l1 ++ l2) = resolveLogOf l1 ++ resolveLogOf l2 :=
  List.filterMap_append l1 l2 _

theorem resolveLogOf_committed_cons (l : List Ev) :
    resolveLogOf (.committed :: l) = resolveLogOf l := rfl

/-- Claim C3: one committed batch invokes each registered listener exactly
once, in registration order (the listener log of the trace is exactly the
registry), synchronously within the commit, and every listener receives a
fresh copy of the committed state: the passed references are pairwise
distinct freshly allocated objects, each holding exactly the post-commit
state content. -/
theorem listener_fanout (σ : Store) (s : ObjFields) (u : Update) (us : List Update)
    (hready : σ.storeReady = true) (hsu : σ.shouldUpdateState = true)
    (hchain : ∀ x, σ.composeNextState x = x)
    (href : σ.heap[σ.stateRef]? = some (HObj.obj s)) (hnd : NoDupKeys s) :
    (runBatch σ (u :: us)).1 = .ok () ∧
    (listenerLogOf (runBatch σ (u :: us)).2.2).map Prod.fst = σ.listeners ∧
    (listenerLogOf (runBatch σ (u :: us)).2.2).map Prod.snd =
      (List.range σ.listeners.length).map
        (fun i => JVal.jref (σ.heap.length + 1 + i)) ∧
    ((listenerLogOf (runBatch σ (u :: us)).2.2).map Prod.snd).Nodup ∧
    (List.range σ.listeners.length).map
        (fun i => (runBatch σ (u :: us)).2.1.heap[σ.heap.length + 1 + i]?) =
      List.replicate σ.listeners.length
        (some (HObj.obj (stateContent (runBatch σ (u :: us)).2.1))) := by
  have hlt : σ.stateRef < σ.heap.length := stateRef_lt href
  rw [runBatch_spec u us hready hsu hchain href hnd]
  have hlog : listenerLogOf
      (Ev.committed :: listenEvs (σ.heap.length + 1) σ.listeners ++
        resolveEvs (σ.heap.length + 1 + σ.listeners.length) 0 (us.length + 1)) =
      listenerLogOf (listenEvs (σ.heap.length + 1) σ.listeners) := by
    rw [listenerLogOf_append, listenerLogOf_committed_cons,
      listenerLogOf_resolveEvs, List.append_nil]
  refine ⟨rfl, ?_, ?_, ?_, ?_⟩
  · rw [hlog, listenerLogOf_listenEvs_fst]
  · rw [hlog, listenerLogOf_listenEvs_snd]
  · rw [hlog, listenerLogOf_listenEvs_snd]
    refine List.Nodup.map ?_ (List.nodup_range _)
    intro a b hab
    simp only [JVal.jref.injEq] at hab
    omega
  · have hcontent : stateContent
        ({ σ with
            heap := ((σ.heap ++ [HObj.obj s]).set σ.stateRef
                (HObj.obj (mergeFold s (u :: us)))) ++
              List.replicate (σ.listeners.length + (us.length + 1))
                (HObj.obj (mergeFold s (u :: us)))
            shouldUpdateState := true
            composeNextState := fun x => x } : Store) = mergeFold s (u :: us) := by
      unfold stateContent
      simp only
      rw [List.getElem?_append_left (by simp ; omega),
        List.getElem?_set_eq_of_lt _ (by simp ; omega)]
    rw [hcontent]
    refine List.eq_replicate_iff.mpr ⟨by simp, ?_⟩
    intro b hb
    rcases List.mem_map.mp hb with ⟨i, hi, hbi⟩
    have hilt : i < σ.listeners.length := List.mem_range.mp hi
    rw [← hbi]
    simp only
    rw [show σ.heap.length + 1 + i =
        ((σ.heap ++ [HObj.obj s]).set σ.stateRef
          (HObj.obj (mergeFold s (u :: us)))).length + i from by simp]
    exact heap_run_region (by omega)

/-- Claim C3 witness: a batch at a store with listeners `10` and `20`. -/
theorem listener_fanout_witness :
    (runBatch applesStore2 applesBatch).1 = .ok () ∧
    (listenerLogOf (runBatch applesStore2 applesBatch).2.2).map Prod.fst =
      applesStore2.listeners ∧
    (listenerLogOf (runBatch applesStore2 applesBatch).2.2).map Prod.snd =
      (List.range applesStore2.listeners.length).map
        (fun i => JVal.jref (applesStore2.heap.length + 1 + i)) ∧
    ((listenerLogOf (runBatch applesStore2 applesBatch).2.2).map Prod.snd).Nodup ∧
    (List.range applesStore2.listeners.length).map
        (fun i =>
          (runBatch applesStore2 applesBatch).2.1.heap[applesStore2.heap.length + 1 + i]?) =
      List.replicate applesStore2.listeners.length
        (some (HObj.obj (stateContent (runBatch applesStore2 applesBatch).2.1))) :=
  listener_fanout applesStore2 [("apples", JVal.jnum 2)] (.obj [("apples", JVal.jnum 3)])
    [incApples, incApples] rfl rfl (fun x => rfl) rfl (by unfold NoDupKeys ; decide)

/-- Claim C7: in a batch window the trace opens with the single commit
event — so every promise resolution happens after the scheduled commit has
completed — and each of the window's calls resolves exactly once, in call
order, with a freshly allocated copy of the post-commit state; all the
resolution copies hold the same content, the committed state. -/
theorem setState_promises_resolve_after_commit (σ : Store) (s : ObjFields)
    (u : Update) (us : List Update)
    (hready : σ.storeReady = true) (hsu : σ.shouldUpdateState = true)
    (hchain : ∀ x, σ.composeNextState x = x)
    (href : σ.heap[σ.stateRef]? = some (HObj.obj s)) (hnd : NoDupKeys s) :
    (runBatch σ (u :: us)).1 = .ok () ∧
    (runBatch σ (u :: us)).2.2.head? = some .committed ∧
    ((runBatch σ (u :: us)).2.2).count .committed = 1 ∧
    (resolveLogOf (runBatch σ (u :: us)).2.2).map Prod.fst =
      List.range (us.length + 1) ∧
    (resolveLogOf (runBatch σ (u :: us)).2.2).map Prod.snd =
      (List.range (us.length + 1)).map
        (fun j => JVal.jref (σ.heap.length + 1 + σ.listeners.length + j)) ∧
    (List.range (us.length + 1)).map
        (fun j => (runBatch σ (u :: us)).2.1.heap[σ.heap.length + 1 +
          σ.listeners.length + j]?) =
      List.replicate (us.length + 1)
        (some (HObj.obj (stateContent (runBatch σ (u :: us)).2.1))) := by
  have hlt : σ.stateRef < σ.heap.length := stateRef_lt href
  rw [runBatch_spec u us hready hsu hchain href hnd]
  have hlog : resolveLogOf
      (Ev.committed :: listenEvs (σ.heap.length + 1) σ.listeners ++
        resolveEvs (σ.heap.length + 1 + σ.listeners.length) 0 (us.length + 1)) =
      resolveLogOf
        (resolveEvs (σ.heap.length + 1 + σ.listeners.length) 0 (us.length + 1)) := by
    rw [resolveLogOf_append, resolveLogOf_committed_cons,
      resolveLogOf_listenEvs, List.nil_append]
  refine ⟨rfl, rfl, ?_, ?_, ?_, ?_⟩
  · rw [List.count_append]
    rw [List.count_eq_zero.mpr (committed_not_mem_resolveEvs _ _ _)]
    rw [List.count_cons_self, List.count_eq_zero.mpr (committed_not_mem_listenEvs _ _)]
  · rw [hlog, resolveLogOf_resolveEvs_fst, List.range_eq_range']
  · rw [hlog, resolveLogOf_resolveEvs_snd]
  · have hcontent : stateContent
        ({ σ with
            heap := ((σ.heap ++ [HObj.obj s]).set σ.stateRef
                (HObj.obj (mergeFold s (u :: us)))) ++
              List.replicate (σ.listeners.length + (us.length + 1))
                (HObj.obj (mergeFold s (u :: us)))
            shouldUpdateState := true
            composeNextState := fun x => x } : Store) = mergeFold s (u :: us) := by
      unfold stateContent
      simp only
      rw [List.getElem?_append_left (by simp ; omega),
        List.getElem?_set_eq_of_lt _ (by simp ; omega)]
    rw [hcontent]
    refine List.eq_replicate_iff.mpr ⟨by simp, ?_⟩
    intro b hb
    rcases List.mem_map.mp hb with ⟨j, hj, hbj⟩
    have hjlt : j < us.length + 1 := List.mem_range.mp hj
    rw [← hbj]
    simp only
    rw [show σ.heap.length + 1 + σ.listeners.length + j =
        ((σ.heap ++ [HObj.obj s]).set σ.stateRef
          (HObj.obj (mergeFold s (u :: us)))).length + (σ.listeners.length + j)
      from by simp ; omega]
    exact heap_run_region (by omega)

/-- Claim C7 witness: the example batch at a store with two listeners. -/
theorem setState_promises_resolve_after_commit_witness :
    (runBatch applesStore2 applesBatch).2.2.head? = some .committed ∧
    ((runBatch applesStore2 applesBatch).2.2).count .committed = 1 ∧
    (resolveLogOf (runBatch applesStore2 applesBatch).2.2).map Prod.fst =
      List.range ([incApples, incApples].length + 1) ∧
    (resolveLogOf (runBatch applesStore2 applesBatch).2.2).map Prod.snd =
      (List.range ([incApples, incApples].length + 1)).map
        (fun j => JVal.jref (applesStore2.heap.length + 1 +
          applesStore2.listeners.length + j)) ∧
    (List.range ([incApples, incApples].length + 1)).map
        (fun j => (runBatch applesStore2 applesBatch).2.1.heap[applesStore2.heap.length +
          1 + applesStore2.listeners.length + j]?) =
      List.replicate ([incApples, incApples].length + 1)
        (some (HObj.obj (stateContent (runBatch applesStore2 applesBatch).2.1))) := by
  have h := setState_promises_resolve_after_commit applesStore2
    [("apples", JVal.jnum 2)] (.obj [("apples", JVal.jnum 3)]) [incApples, incApples]
    rfl rfl (fun x => rfl) rfl (by unfold NoDupKeys ; decide)
  exact ⟨h.2.1, h.2.2.1, h.2.2.2.1, h.2.2.2.2.1, h.2.2.2.2.2⟩

end BumbleStore
